import Mathlib

/-!
G+Smo assembly pipeline: mass visitor, Dirichlet expansion and driver loops.

A shallow embedding of

* `src/gsAssembler/gsVisitorMass.h` (element mass matrix and its scatter into the
  global matrix),
* `examples/LinpLap_example.cpp` (`addDirVal`, `reduceDirichlet` and the do-while
  fixed-point loop),
* `examples/poisson2d_example_adaptRef.cpp` (the adaptive refinement loop),

followed by theorems about these definitions.

Conventions of the embedding.

* `real_t` is an exact commutative ring `T` (ordered where a norm is compared);
  rounding is not modelled.
* A `gsMatrix<T>` is its run-time dimensions together with its coefficient
  accessor `coeff i j` (the value of `M(i,j)`).  Vectors are matrices with one
  column, read through column `0`.
* `for (i = 0; i < n; ++i)` loops are `forLoop n body`, a left fold over
  `0, 1, ..., n-1`.
* Library classes whose code is not part of the three files (`gsDofMapper`,
  `gsBasis`, `gsGeometryEvaluator`, the LinpLap assembler, the LU solver, the
  Euclidean norm) appear as records of functions, so every theorem holds for
  whatever these collaborators compute.
-/

/-! ## Data model -/

/-- Dense matrix `gsMatrix<T>`: number of rows, number of columns and the
coefficient accessor `M(i,j)`. -/
@[ext]
structure gsMatrix (T : Type) where
  rows : Nat
  cols : Nat
  coeff : Nat → Nat → T

/-- Sparse matrices `gsSparseMatrix<T>` are read and written through the same
coefficient interface; entries that are not stored read as zero. -/
abbrev gsSparseMatrix (T : Type) := gsMatrix T

/-- Counted loop `for (i = 0; i < n; ++i) s = body i s`. -/
def forLoop {σ : Type} (n : Nat) (body : Nat → σ → σ) (s : σ) : σ :=
  (List.range n).foldl (fun acc i => body i acc) s

namespace gsMatrix

variable {T : Type}

/-- `gsMatrix<T>::Zero(r, c)` and `setZero(r, c)`. -/
def Zero [OfNat T 0] (r c : Nat) : gsMatrix T :=
  { rows := r, cols := c, coeff := fun _ _ => 0 }

/-- `M.col(j)`: column `j` as a one-column matrix. -/
def col (M : gsMatrix T) (j : Nat) : gsMatrix T :=
  { rows := M.rows, cols := 1, coeff := fun i _ => M.coeff i j }

/-- `v.asDiagonal()`: the square matrix with the vector `v` on its diagonal. -/
def asDiagonal [OfNat T 0] (v : gsMatrix T) : gsMatrix T :=
  { rows := v.rows, cols := v.rows, coeff := fun i j => if i = j then v.coeff i 0 else 0 }

/-- `M.transpose()`. -/
def transpose (M : gsMatrix T) : gsMatrix T :=
  { rows := M.cols, cols := M.rows, coeff := fun i j => M.coeff j i }

/-- Matrix product `A * B`: entry `(i,j)` sums `A(i,k) * B(k,j)` over the inner
dimension of the left factor.  This is the product of the library when
`A.cols = B.rows`.  For factors whose inner dimensions differ the library
product is not defined (it stops on a dimension assertion or reads out of
range, depending on the build); the value given here in that case is a
convention of the embedding and carries no statement about the code. -/
def mul [Semiring T] (A B : gsMatrix T) : gsMatrix T :=
  { rows := A.rows, cols := B.cols,
    coeff := fun i j => ∑ k in Finset.range A.cols, A.coeff i k * B.coeff k j }

/-- Coefficient-wise difference `A - B`, with the shape of the left operand. -/
def sub [Sub T] (A B : gsMatrix T) : gsMatrix T :=
  { rows := A.rows, cols := A.cols, coeff := fun i j => A.coeff i j - B.coeff i j }

/-- The update `M.coeffRef(r, c) += x`. -/
def coeffRefAdd [Add T] (M : gsMatrix T) (r c : Nat) (x : T) : gsMatrix T :=
  { rows := M.rows, cols := M.cols,
    coeff := fun i j => if i = r ∧ j = c then M.coeff i j + x else M.coeff i j }

/-- Row assignment `M.row(i) = src.row(k)` seen through the first column of
`src`: every stored coefficient of row `i` of `M` is overwritten (the
destination of the source has a single column). -/
def setRow (M : gsMatrix T) (i : Nat) (x : T) : gsMatrix T :=
  { rows := M.rows, cols := M.cols,
    coeff := fun r c => if r = i ∧ c < M.cols then x else M.coeff r c }

/-- Two matrices have the same shape and the same stored coefficients. -/
def equalOn (A B : gsMatrix T) : Prop :=
  A.rows = B.rows ∧ A.cols = B.cols ∧
    ∀ i j, i < A.rows → j < A.cols → A.coeff i j = B.coeff i j

/-- Every stored coefficient is zero. -/
def isZero [OfNat T 0] (A : gsMatrix T) : Prop :=
  ∀ i j, i < A.rows → j < A.cols → A.coeff i j = 0

end gsMatrix

/-- The queries of `gsDofMapper` used by the sources.  Its code is not part of
the three files, so the mapper is a record of the functions the callers use:
`index i k` (global index of basis function `i` of patch `k`), `is_free i k`,
`bindex i k` (slot of an eliminated function in the table of fixed values),
`is_free_index g` (is the global index `g` a free one) and `localToGlobal`
(patch-local active indices to global indices). -/
structure gsDofMapper where
  index : Nat → Nat → Nat
  is_free : Nat → Nat → Bool
  bindex : Nat → Nat → Nat
  is_free_index : Nat → Bool
  localToGlobal : gsMatrix Nat → Int → gsMatrix Nat

/-- The part of `gsBasis<T>` used by `gsVisitorMass::evaluate`. -/
structure gsBasis (T : Type) where
  active_into : gsMatrix T → gsMatrix Nat
  eval_into : gsMatrix T → gsMatrix T

/-- The part of `gsGeometryEvaluator<T>` used by the mass visitor: the measures
stored by the last `evaluateAt`, and the map from quadrature nodes to measures
that `evaluateAt` applies. -/
structure gsGeometryEvaluator (T : Type) where
  measures : gsMatrix T
  measureAt : gsMatrix T → gsMatrix T

/-- `geoEval.evaluateAt(quNodes)` with the flag `NEED_MEASURE`. -/
def gsGeometryEvaluator.evaluateAt {T : Type} (g : gsGeometryEvaluator T)
    (quNodes : gsMatrix T) : gsGeometryEvaluator T :=
  { g with measures := g.measureAt quNodes }

/-! ## `gsVisitorMass` -/

/-- The protected members of `gsVisitorMass<T>`. -/
structure gsVisitorMass (T : Type) where
  basisData : gsMatrix T
  actives : gsMatrix Nat
  localMat : gsMatrix T

namespace gsVisitorMass

variable {T : Type}

/-- `gsVisitorMass::evaluate`: actives at the first quadrature node, basis
values at all nodes, geometry evaluation, and a zero local matrix of size
`numActive x numActive`. -/
def evaluate [OfNat T 0] (v : gsVisitorMass T) (basis : gsBasis T)
    (geoEval : gsGeometryEvaluator T) (quNodes : gsMatrix T) :
    gsVisitorMass T × gsGeometryEvaluator T :=
  let actives := basis.active_into (quNodes.col 0)
  let numActive := actives.rows
  let basisData := basis.eval_into quNodes
  let geoEval1 := geoEval.evaluateAt quNodes
  ({ v with actives := actives, basisData := basisData,
            localMat := gsMatrix.Zero numActive numActive }, geoEval1)

/-- `gsVisitorMass::assemble`:
`localMat = basisData * quWeights.asDiagonal() * measures.asDiagonal() * basisData.transpose()`.
The element iterator argument of the source is not read and is left out. -/
def assemble [Semiring T] (v : gsVisitorMass T) (geoEval : gsGeometryEvaluator T)
    (quWeights : gsMatrix T) : gsVisitorMass T :=
  { v with localMat :=
      (((v.basisData.mul quWeights.asDiagonal).mul geoEval.measures.asDiagonal).mul
        v.basisData.transpose) }

/-- `gsVisitorMass::localToGlobal` (the overload taking a `gsDofMapper`).
`actives` is overwritten by the global indices; then every pair of active
functions whose global indices are both free adds its local entry to the sparse
matrix.  `eliminatedDofs` and `rhsMatrix` are received and never used; the
right-hand side is returned as it came. -/
def localToGlobal [Add T] (v : gsVisitorMass T) (mapper : gsDofMapper)
    (_eliminatedDofs : gsMatrix T) (patchIndex : Int)
    (sysMatrix : gsSparseMatrix T) (rhsMatrix : gsMatrix T) :
    gsVisitorMass T × gsSparseMatrix T × gsMatrix T :=
  let actives := mapper.localToGlobal v.actives patchIndex
  let numActive := actives.rows
  let sysMatrix1 :=
    forLoop numActive (fun i sys =>
      let ii := actives.coeff i 0
      if mapper.is_free_index ii then
        forLoop numActive (fun j sys1 =>
          let jj := actives.coeff j 0
          if mapper.is_free_index jj then
            sys1.coeffRefAdd ii jj (v.localMat.coeff i j)
          else sys1) sys
      else sys) sysMatrix
  ({ v with actives := actives }, sysMatrix1, rhsMatrix)

end gsVisitorMass

/-! ## `LinpLap_example.cpp`: expansion of the free-DOF vector -/

/-- The part of `gsAssembler<T>` read by the driver: `system().colMapper(0)`,
`multiBasis(0).size()`, `fixedDofs(0)`, `numDofs()`, `matrix()` and `rhs()`. -/
structure gsAssembler (T : Type) where
  colMapper : gsDofMapper
  basisSize : Nat
  fixedDofs : gsMatrix T
  numDofs : Nat
  matrix : gsSparseMatrix T
  rhs : gsMatrix T

/-- `addDirVal`: a vector with one row per basis function; row `i` is copied
from row `mapper.index(i,0)` of the solution when `i` is free and from row
`mapper.bindex(i,0)` (first entry) of the fixed values otherwise.  The
coefficients of the fresh `n x 1` matrix, which the source leaves
uninitialised, start as zero; the loop overwrites every one of them. -/
def addDirVal {T : Type} [OfNat T 0] (a : gsAssembler T) (solVector : gsMatrix T) :
    gsMatrix T :=
  let mapper := a.colMapper
  let n := a.basisSize
  forLoop n (fun i solVector_new =>
    if mapper.is_free i 0 then
      solVector_new.setRow i (solVector.coeff (mapper.index i 0) 0)
    else
      solVector_new.setRow i (a.fixedDofs.coeff (mapper.bindex i 0) 0))
    (gsMatrix.Zero n 1)

/-- `reduceDirichlet`: the loop keeps the result vector together with the
counter `k`; a free index `i` writes row `i - k` and resets `k`, an eliminated
index increments `k`. -/
def reduceDirichlet {T : Type} [OfNat T 0] (a : gsAssembler T) (w_ : gsMatrix T) :
    gsMatrix T :=
  let mapper := a.colMapper
  let n := a.basisSize
  (forLoop n (fun i (st : gsMatrix T × Nat) =>
    if mapper.is_free i 0 then
      (st.1.setRow (i - st.2) (w_.coeff (mapper.index i 0) 0), 0)
    else
      (st.1, st.2 + 1))
    (gsMatrix.Zero a.numDofs 1, 0)).1

/-! ## `LinpLap_example.cpp`: the fixed-point loop of one refinement level -/

/-- The LinpLap assembler: a `gsAssembler` that also holds the linearization
state `w` of the PDE it was constructed from. -/
structure gsLinpLapAssembler (T : Type) extends gsAssembler T where
  pde_w : gsMatrix T

/-- Collaborators of the driver whose code is outside the three files:
`construct w` is `gsLinpLapAssembler<real_t>(pde, refine_basis, str, iFace::glue)`
for the current basis and `pde.w = w`; `assemble` is `assembler.assemble()`;
`solve K f` is the LU solver (`analyzePattern`, `factorize`, `solve(f)`);
`norm` is `rh.norm()`. -/
structure LinpLapServices (T : Type) where
  construct : gsMatrix T → gsLinpLapAssembler T
  assemble : gsLinpLapAssembler T → gsLinpLapAssembler T
  solve : gsSparseMatrix T → gsMatrix T → gsMatrix T
  norm : gsMatrix T → T

/-- Variables of `main` that the fixed-point loop reads and writes.
`assembleCalls` counts the calls of `assembler.assemble()` made so far on the
current refinement level. -/
structure LinpLapState (T : Type) where
  pde_w : gsMatrix T
  assembler : gsLinpLapAssembler T
  Kh : gsSparseMatrix T
  fh : gsMatrix T
  solVector : gsMatrix T
  rh : gsMatrix T
  iter : Int
  assembleCalls : Nat

/-- Lines 224-239: `pde.w = Zero(n,1)`, a fresh assembler, `assemble()`,
`Kh = matrix()`, `fh = rhs()`, `iter = 0`.  `solVector` and `rh` still hold
what the previous level left in them. -/
def levelInit {T : Type} [OfNat T 0] (svc : LinpLapServices T) (n : Nat)
    (solVector rh : gsMatrix T) : LinpLapState T :=
  let pde_w := gsMatrix.Zero n 1
  let assembler := svc.assemble (svc.construct pde_w)
  { pde_w := pde_w, assembler := assembler, Kh := assembler.matrix, fh := assembler.rhs,
    solVector := solVector, rh := rh, iter := 0, assembleCalls := 1 }

/-- Body of the do-while loop (lines 247-267): solve with the current `Kh`,
expand the solution to the new `w`, construct and assemble with the new `w`,
take the new matrix, form `rh = Kh * solVector - fh`, increment `iter`. -/
def fixedPointBody {T : Type} [Ring T] (svc : LinpLapServices T) (s : LinpLapState T) :
    LinpLapState T :=
  let solVector := svc.solve s.Kh s.fh
  let pde_w := addDirVal s.assembler.togsAssembler solVector
  let assembler := svc.assemble (svc.construct pde_w)
  let Kh := assembler.matrix
  let rh := (Kh.mul solVector).sub s.fh
  { pde_w := pde_w, assembler := assembler, Kh := Kh, fh := s.fh,
    solVector := solVector, rh := rh, iter := s.iter + 1,
    assembleCalls := s.assembleCalls + 1 }

/-- The loop `do body while (iter < maxiter && rh.norm() > TOL)`. -/
def fixedPointLoop {T : Type} [LinearOrderedRing T] (svc : LinpLapServices T)
    (maxiter : Int) (TOL : T) (s : LinpLapState T) : LinpLapState T :=
  if _h : (fixedPointBody svc s).iter < maxiter ∧ TOL < svc.norm (fixedPointBody svc s).rh then
    fixedPointLoop svc maxiter TOL (fixedPointBody svc s)
  else
    fixedPointBody svc s
termination_by (maxiter - s.iter).toNat
decreasing_by
  have h1 : s.iter + 1 < maxiter := _h.1
  show (maxiter - (s.iter + 1)).toNat < (maxiter - s.iter).toNat
  omega

/-- One refinement level of the driver: the set-up followed by the do-while
loop. -/
def solveLevel {T : Type} [LinearOrderedRing T] (svc : LinpLapServices T) (n : Nat)
    (solVector rh : gsMatrix T) (maxiter : Int) (TOL : T) : LinpLapState T :=
  fixedPointLoop svc maxiter TOL (levelInit svc n solVector rh)

/-- State after `k` executions of the loop body on this level: its fields are
the `k`-th solve `x_k`, its expansion `w_k`, the matrix `K(w_k)` and the
residual `r_k`. -/
def levelIterate {T : Type} [Ring T] (svc : LinpLapServices T) (n : Nat)
    (solVector rh : gsMatrix T) (k : Nat) : LinpLapState T :=
  (fixedPointBody svc)^[k] (levelInit svc n solVector rh)

/-! ## `poisson2d_example_adaptRef.cpp`: the adaptive refinement loop -/

/-- Value stored in a 32-bit `int` for the arithmetic result `x`
(two's-complement wrap-around, the result of the usual targets where the C++
standard leaves signed overflow undefined). -/
def wrapInt32 (x : Int) : Int := (x + 2 ^ 31) % 2 ^ 32 - 2 ^ 31

/-- Collaborators of one refinement pass: `solvePass` is assembling with a
fresh `gsPoissonAssembler`, the conjugate-gradient solve and
`constructSolution`; `estimate` is `gsErrEstPoissonResidual::compute` followed
by `elementNorms()`; `mark` is `gsMarkElementsForRef` with the criterion and
parameter of the command line; `refine` is `gsRefineMarkedElements`. -/
structure AdaptServices (B F T : Type) where
  solvePass : B → F
  estimate : F → List T
  mark : List T → List Bool
  refine : B → List Bool → B

/-- Body of the refinement loop acting on the bases. -/
def refinePass {B F T : Type} (svc : AdaptServices B F T) (bases : B) : B :=
  let sol := svc.solvePass bases
  let elErrEst := svc.estimate sol
  let elMarked := svc.mark elErrEst
  svc.refine bases elMarked

/-- The loop `for (int RefineLoop = 1; RefineLoop <= RefineLoopMax; RefineLoop++)`,
run for at most `fuel` evaluations of its condition.  The state is the bases
together with the log of pass numbers printed so far; `none` means that the
loop has not ended within the fuel. -/
def adaptiveLoopFrom {B F T : Type} (svc : AdaptServices B F T) (RefineLoopMax : Int) :
    Nat → Int → B × List Int → Option (B × List Int)
  | 0, _, _ => none
  | fuel + 1, RefineLoop, st =>
    if RefineLoop ≤ RefineLoopMax then
      adaptiveLoopFrom svc RefineLoopMax fuel (wrapInt32 (RefineLoop + 1))
        (refinePass svc st.1, st.2 ++ [RefineLoop])
    else
      some st

/-- The refinement loop of `main`, entered with `RefineLoop = 1`. -/
def adaptiveLoop {B F T : Type} (svc : AdaptServices B F T) (RefineLoopMax : Int)
    (fuel : Nat) (bases : B) : Option (B × List Int) :=
  adaptiveLoopFrom svc RefineLoopMax fuel 1 (bases, [])

/-! ## Concrete data used to evaluate the definitions -/

/-- A mapper of a three-function basis: function `1` is free with global index
`0`; functions `0` and `2` are eliminated with global indices `1`, `2` and
slots `0`, `1` in the table of fixed values. -/
def exMapper : gsDofMapper :=
  { index := fun i _ => match i with
      | 0 => 1
      | 1 => 0
      | n => n
    is_free := fun i _ => decide (i = 1)
    bindex := fun i _ => match i with
      | 0 => 0
      | _ => 1
    is_free_index := fun g => decide (g < 1)
    localToGlobal := fun acts _ =>
      { rows := acts.rows, cols := acts.cols,
        coeff := fun i j => match acts.coeff i j with
          | 0 => 1
          | 1 => 0
          | n => n } }

/-- Basis values of two active functions at two quadrature points:
`[[1, 2], [3, 4]]`; the active functions are the local functions `1` and `0`. -/
def exVisitor : gsVisitorMass Int :=
  { basisData := { rows := 2, cols := 2, coeff := fun i q => 2 * (i : Int) + q + 1 }
    actives := { rows := 2, cols := 1, coeff := fun i _ => 1 - i }
    localMat := gsMatrix.Zero 2 2 }

/-- Measures `[2, 3]` at the two quadrature points. -/
def exGeoEval : gsGeometryEvaluator Int :=
  { measures := { rows := 2, cols := 1, coeff := fun q _ => (q : Int) + 2 }
    measureAt := fun _ => { rows := 2, cols := 1, coeff := fun q _ => (q : Int) + 2 } }

/-- Quadrature weights `[1, 1]`. -/
def exWeights : gsMatrix Int :=
  { rows := 2, cols := 1, coeff := fun _ _ => 1 }

/-- Fixed values `[1, 1]` of the two eliminated functions. -/
def exFixed : gsMatrix Int :=
  { rows := 2, cols := 1, coeff := fun _ _ => 1 }

/-- A visitor holding the local matrix `[[1, 2], [3, 4]]` of the local
functions `1` (free, global `0`) and `0` (eliminated, global `1`). -/
def exScatter : gsVisitorMass Int :=
  { basisData := gsMatrix.Zero 2 2
    actives := { rows := 2, cols := 1, coeff := fun i _ => 1 - i }
    localMat := { rows := 2, cols := 2, coeff := fun i j => 2 * (i : Int) + j + 1 } }

/-- A second element: local functions `1` and `2` with local matrix
`[[5, 6], [7, 8]]`. -/
def exScatterB : gsVisitorMass Int :=
  { basisData := gsMatrix.Zero 2 2
    actives := { rows := 2, cols := 1, coeff := fun i _ => i + 1 }
    localMat := { rows := 2, cols := 2, coeff := fun i j => 2 * (i : Int) + j + 5 } }

/-- One active function with value `1` at two quadrature points. -/
def exDegreeZero : gsVisitorMass Rat :=
  { basisData := { rows := 1, cols := 2, coeff := fun _ _ => 1 }
    actives := { rows := 1, cols := 1, coeff := fun _ _ => 1 }
    localMat := gsMatrix.Zero 1 1 }

/-- Measure `1` at both quadrature points. -/
def exUnitGeo : gsGeometryEvaluator Rat :=
  { measures := { rows := 2, cols := 1, coeff := fun _ _ => 1 }
    measureAt := fun _ => { rows := 2, cols := 1, coeff := fun _ _ => 1 } }

/-- Quadrature weights `[1/2, 1/2]`. -/
def exHalfWeights : gsMatrix Rat :=
  { rows := 2, cols := 1, coeff := fun _ _ => 1 / 2 }

/-- An assembler over `exMapper`: three basis functions, one free DOF and the
fixed values `[7, 9]`. -/
def exAssembler : gsAssembler Int :=
  { colMapper := exMapper
    basisSize := 3
    fixedDofs := { rows := 2, cols := 1, coeff := fun b _ => 2 * (b : Int) + 7 }
    numDofs := 1
    matrix := gsMatrix.Zero 1 1
    rhs := gsMatrix.Zero 1 1 }

/-- The free-DOF vector `[5]`. -/
def exSol : gsMatrix Int :=
  { rows := 1, cols := 1, coeff := fun _ _ => 5 }

/-- A mapper without eliminated functions (the Nitsche strategy of the driver):
every index is free and is its own global index. -/
def exFreeMapper : gsDofMapper :=
  { index := fun i _ => i
    is_free := fun _ _ => true
    bindex := fun _ _ => 0
    is_free_index := fun _ => true
    localToGlobal := fun acts _ => acts }

/-- Norm of a matrix with at most one stored coefficient. -/
def exNorm (v : gsMatrix Int) : Int :=
  if v.rows = 0 ∨ v.cols = 0 then 0 else ((v.coeff 0 0).natAbs : Int)

/-- A scalar nonlinear problem: the `1 x 1` matrix is `[w + 1]`, the right-hand
side is `[4]`, and the solver divides (integer division).  Its residuals are
`16, -4, 16, -4, ...`. -/
def exServices : LinpLapServices Int :=
  { construct := fun w =>
      { colMapper := exFreeMapper, basisSize := 1, fixedDofs := gsMatrix.Zero 0 1,
        numDofs := 1,
        matrix := { rows := 1, cols := 1, coeff := fun _ _ => w.coeff 0 0 + 1 },
        rhs := { rows := 1, cols := 1, coeff := fun _ _ => 4 },
        pde_w := w }
    assemble := fun a => a
    solve := fun K f => { rows := 1, cols := 1, coeff := fun _ _ => f.coeff 0 0 / K.coeff 0 0 }
    norm := exNorm }

/-- A scalar linear problem: the matrix is `[2]` whatever `w` is, the right-hand
side is `[4]`, and the solver divides. -/
def exLinearServices : LinpLapServices Int :=
  { construct := fun w =>
      { colMapper := exFreeMapper, basisSize := 1, fixedDofs := gsMatrix.Zero 0 1,
        numDofs := 1,
        matrix := { rows := 1, cols := 1, coeff := fun _ _ => 2 },
        rhs := { rows := 1, cols := 1, coeff := fun _ _ => 4 },
        pde_w := w }
    assemble := fun a => a
    solve := fun K f => { rows := 1, cols := 1, coeff := fun _ _ => f.coeff 0 0 / K.coeff 0 0 }
    norm := exNorm }

/-- Refinement collaborators on a mesh given by its number of elements: every
element is marked and every marked element is split in four. -/
def exAdapt : AdaptServices Nat Nat Int :=
  { solvePass := fun bases => bases
    estimate := fun sol => List.replicate sol 1
    mark := fun errs => errs.map (fun _ => true)
    refine := fun bases marked => bases + 3 * marked.length }

/-- An assembler of a two-function basis without eliminated functions. -/
def exFreeAssembler : gsAssembler Int :=
  { colMapper := exFreeMapper, basisSize := 2, fixedDofs := gsMatrix.Zero 0 1,
    numDofs := 2, matrix := gsMatrix.Zero 2 2, rhs := gsMatrix.Zero 2 1 }

/-- The coefficient vector `[5, 6]`. -/
def exFull : gsMatrix Int :=
  { rows := 2, cols := 1, coeff := fun i _ => (i : Int) + 5 }

/-! ## Theorems: local mass matrix -/

section MassTheorems

variable {T : Type}

theorem mul_asDiagonal_coeff [Semiring T] (A d : gsMatrix T) (i j : Nat) :
    (A.mul d.asDiagonal).coeff i j = if j < A.cols then A.coeff i j * d.coeff j 0 else 0 := by
  simp only [gsMatrix.mul, gsMatrix.asDiagonal]
  by_cases hj : j < A.cols
  · rw [if_pos hj, Finset.sum_eq_single j]
    · simp
    · intro k _ hk
      simp [hk]
    · intro h
      exact absurd (Finset.mem_range.mpr hj) h
  · rw [if_neg hj]
    apply Finset.sum_eq_zero
    intro k hk
    have : k ≠ j := by
      rintro rfl
      exact hj (Finset.mem_range.mp hk)
    simp [this]

/-- Entry `(i,j)` of the product formed by `assemble`, when the weight and
measure vectors have one entry per column of the basis values. -/
theorem assemble_coeff [Semiring T] (v : gsVisitorMass T)
    (geoEval : gsGeometryEvaluator T) (quWeights : gsMatrix T)
    (hw : quWeights.rows = v.basisData.cols)
    (hm : geoEval.measures.rows = v.basisData.cols) (i j : Nat) :
    (v.assemble geoEval quWeights).localMat.coeff i j =
      ∑ q in Finset.range v.basisData.cols,
        v.basisData.coeff i q * quWeights.coeff q 0 * geoEval.measures.coeff q 0 *
          v.basisData.coeff j q := by
  show ∑ q in Finset.range geoEval.measures.asDiagonal.cols,
      ((v.basisData.mul quWeights.asDiagonal).mul geoEval.measures.asDiagonal).coeff i q *
        v.basisData.transpose.coeff q j = _
  have hc : geoEval.measures.asDiagonal.cols = v.basisData.cols := hm
  rw [hc]
  apply Finset.sum_congr rfl
  intro q hq
  have hq1 : q < v.basisData.cols := Finset.mem_range.mp hq
  have hq2 : q < (v.basisData.mul quWeights.asDiagonal).cols := by
    show q < quWeights.rows
    rw [hw]; exact hq1
  rw [mul_asDiagonal_coeff, if_pos hq2, mul_asDiagonal_coeff, if_pos hq1]
  rfl

/-- C1. `gsVisitorMass::assemble` computes the weighted Gram matrix: when the
basis-value matrix has `numActive` rows and the weight and measure vectors have
one entry per quadrature point (column of the basis values), the local matrix is
`numActive x numActive` and its entry `(i,j)` is the sum over quadrature points
`q` of `B(i,q) * w(q) * m(q) * B(j,q)`. -/
theorem assemble_weighted_gram [Semiring T] (v : gsVisitorMass T)
    (geoEval : gsGeometryEvaluator T) (quWeights : gsMatrix T)
    (hB : v.basisData.rows = v.actives.rows)
    (hw : quWeights.rows = v.basisData.cols)
    (hm : geoEval.measures.rows = v.basisData.cols) :
    (v.assemble geoEval quWeights).localMat.rows = v.actives.rows ∧
    (v.assemble geoEval quWeights).localMat.cols = v.actives.rows ∧
    ∀ i j, (v.assemble geoEval quWeights).localMat.coeff i j =
      ∑ q in Finset.range v.basisData.cols,
        v.basisData.coeff i q * quWeights.coeff q 0 * geoEval.measures.coeff q 0 *
          v.basisData.coeff j q :=
  ⟨hB, hB, assemble_coeff v geoEval quWeights hw hm⟩

/-- Witness of C1 on the basis values `[[1, 2], [3, 4]]`, weights `[1, 1]` and
measures `[2, 3]`: the local matrix is `2 x 2` and its entry `(0,1)` is
`1*1*2*3 + 2*1*3*4 = 30`. -/
theorem assemble_weighted_gram_witness :
    exVisitor.basisData.rows = exVisitor.actives.rows ∧
    exWeights.rows = exVisitor.basisData.cols ∧
    exGeoEval.measures.rows = exVisitor.basisData.cols ∧
    (exVisitor.assemble exGeoEval exWeights).localMat.rows = 2 ∧
    (exVisitor.assemble exGeoEval exWeights).localMat.cols = 2 ∧
    (exVisitor.assemble exGeoEval exWeights).localMat.coeff 0 1 = 30 :=
  ⟨rfl, rfl, rfl,
   (assemble_weighted_gram exVisitor exGeoEval exWeights rfl rfl rfl).1,
   (assemble_weighted_gram exVisitor exGeoEval exWeights rfl rfl rfl).2.1,
   ((assemble_weighted_gram exVisitor exGeoEval exWeights rfl rfl rfl).2.2 0 1).trans
     (by decide)⟩

end MassTheorems

/-! ## Theorems: scatter into the global matrix -/

section ScatterTheorems

variable {T : Type}

theorem forLoop_succ {σ : Type} (n : Nat) (body : Nat → σ → σ) (s : σ) :
    forLoop (n + 1) body s = body n (forLoop n body s) := by
  simp [forLoop, List.range_succ, List.foldl_append]

theorem forLoop_zero {σ : Type} (body : Nat → σ → σ) (s : σ) :
    forLoop 0 body s = s := rfl

/-- A loop whose body adds `f i r c` to every entry `(r,c)` adds the sum of the
`f i r c` and keeps the shape of the matrix. -/
theorem forLoop_coeff_add [AddCommMonoid T] (body : Nat → gsMatrix T → gsMatrix T)
    (f : Nat → Nat → Nat → T)
    (hbody : ∀ i s, (body i s).rows = s.rows ∧ (body i s).cols = s.cols ∧
      ∀ r c, (body i s).coeff r c = s.coeff r c + f i r c)
    (n : Nat) (s : gsMatrix T) :
    (forLoop n body s).rows = s.rows ∧ (forLoop n body s).cols = s.cols ∧
    ∀ r c, (forLoop n body s).coeff r c = s.coeff r c + ∑ i in Finset.range n, f i r c := by
  induction n with
  | zero => simp [forLoop_zero]
  | succ n ih =>
    rw [forLoop_succ]
    obtain ⟨h1, h2, h3⟩ := hbody n (forLoop n body s)
    obtain ⟨i1, i2, i3⟩ := ih
    refine ⟨h1.trans i1, h2.trans i2, ?_⟩
    intro r c
    rw [h3, i3, Finset.sum_range_succ, add_assoc]

/-- Contribution of the local pair `(i,j)` to the global entry `(r,c)`. -/
theorem localToGlobal_spec [AddCommMonoid T] (v : gsVisitorMass T) (mapper : gsDofMapper)
    (elim : gsMatrix T) (patchIndex : Int) (sys : gsSparseMatrix T) (rhs : gsMatrix T) :
    (v.localToGlobal mapper elim patchIndex sys rhs).2.1.rows = sys.rows ∧
    (v.localToGlobal mapper elim patchIndex sys rhs).2.1.cols = sys.cols ∧
    ∀ r c, (v.localToGlobal mapper elim patchIndex sys rhs).2.1.coeff r c =
      sys.coeff r c +
        ∑ i in Finset.range (mapper.localToGlobal v.actives patchIndex).rows,
          ∑ j in Finset.range (mapper.localToGlobal v.actives patchIndex).rows,
            if (mapper.localToGlobal v.actives patchIndex).coeff i 0 = r ∧
                (mapper.localToGlobal v.actives patchIndex).coeff j 0 = c ∧
                mapper.is_free_index r = true ∧ mapper.is_free_index c = true
            then v.localMat.coeff i j else 0 := by
  simp only [gsVisitorMass.localToGlobal]
  apply forLoop_coeff_add
  intro i s
  by_cases hi : mapper.is_free_index ((mapper.localToGlobal v.actives patchIndex).coeff i 0) = true
  · rw [if_pos hi]
    apply forLoop_coeff_add
    intro j s1
    by_cases hj : mapper.is_free_index
        ((mapper.localToGlobal v.actives patchIndex).coeff j 0) = true
    · rw [if_pos hj]
      refine ⟨rfl, rfl, ?_⟩
      intro r c
      simp only [gsMatrix.coeffRefAdd]
      by_cases hrc : r = (mapper.localToGlobal v.actives patchIndex).coeff i 0 ∧
          c = (mapper.localToGlobal v.actives patchIndex).coeff j 0
      · obtain ⟨hr, hc⟩ := hrc
        subst hr hc
        simp [hi, hj]
      · rw [if_neg hrc, if_neg, add_zero]
        rintro ⟨h1, h2, -⟩
        exact hrc ⟨h1.symm, h2.symm⟩
    · rw [if_neg hj]
      refine ⟨rfl, rfl, ?_⟩
      intro r c
      rw [if_neg, add_zero]
      rintro ⟨-, h2, -, h4⟩
      rw [← h2] at h4
      exact hj h4
  · rw [if_neg hi]
    refine ⟨rfl, rfl, ?_⟩
    intro r c
    rw [Finset.sum_eq_zero, add_zero]
    intro j _
    rw [if_neg]
    rintro ⟨h1, -, h3, -⟩
    rw [← h1] at h3
    exact hi h3

/-- C2. `gsVisitorMass::localToGlobal` (mapper overload) scatters exactly the
free/free pairs: every entry `(r,c)` of the matrix after the call is its old
value plus the sum of `localMat(i,j)` over the local pairs `(i,j)` whose global
indices are `r` and `c` with both `r` and `c` free; in particular an entry in
the row or the column of a non-free index is not changed. -/
theorem localToGlobal_scatters_free_pairs [AddCommMonoid T] (v : gsVisitorMass T)
    (mapper : gsDofMapper) (elim : gsMatrix T) (patchIndex : Int)
    (sys : gsSparseMatrix T) (rhs : gsMatrix T) :
    (∀ r c, (v.localToGlobal mapper elim patchIndex sys rhs).2.1.coeff r c =
      sys.coeff r c +
        ∑ i in Finset.range (mapper.localToGlobal v.actives patchIndex).rows,
          ∑ j in Finset.range (mapper.localToGlobal v.actives patchIndex).rows,
            if (mapper.localToGlobal v.actives patchIndex).coeff i 0 = r ∧
                (mapper.localToGlobal v.actives patchIndex).coeff j 0 = c ∧
                mapper.is_free_index r = true ∧ mapper.is_free_index c = true
            then v.localMat.coeff i j else 0) ∧
    (∀ r c, mapper.is_free_index r = false ∨ mapper.is_free_index c = false →
      (v.localToGlobal mapper elim patchIndex sys rhs).2.1.coeff r c = sys.coeff r c) := by
  have h := (localToGlobal_spec v mapper elim patchIndex sys rhs).2.2
  refine ⟨h, ?_⟩
  intro r c hrc
  rw [h, Finset.sum_eq_zero, add_zero]
  intro i _
  apply Finset.sum_eq_zero
  intro j _
  rw [if_neg]
  rintro ⟨-, -, h3, h4⟩
  rcases hrc with h0 | h0
  · rw [h0] at h3; exact Bool.false_ne_true h3
  · rw [h0] at h4; exact Bool.false_ne_true h4

/-- Witness of C2: global index `1` is eliminated in `exMapper`, so the entry
`(1, 0)` keeps its value when the element `exScatter` is scattered. -/
theorem localToGlobal_scatters_free_pairs_witness :
    exMapper.is_free_index 1 = false ∧
    (exScatter.localToGlobal exMapper exFixed 0 (gsMatrix.Zero 1 1)
      (gsMatrix.Zero 1 1)).2.1.coeff 1 0 = (gsMatrix.Zero 1 1 : gsMatrix Int).coeff 1 0 :=
  ⟨rfl, (localToGlobal_scatters_free_pairs exScatter exMapper exFixed 0 (gsMatrix.Zero 1 1)
    (gsMatrix.Zero 1 1)).2 1 0 (Or.inl rfl)⟩

/-- C3 fails as stated.  In `exScatter` the local pair `(0,1)` has a free row
index (global `0`) and an eliminated column index (global `1`, fixed value `1`)
and `localMat(0,1) = 2`; the right-hand-side row `0` is not lowered by `2 * 1`. -/
theorem localToGlobal_condensation_counterexample :
    exMapper.is_free_index ((exMapper.localToGlobal exScatter.actives 0).coeff 0 0) = true ∧
    exMapper.is_free_index ((exMapper.localToGlobal exScatter.actives 0).coeff 1 0) = false ∧
    exScatter.localMat.coeff 0 1 * exFixed.coeff 0 0 = 2 ∧
    (exScatter.localToGlobal exMapper exFixed 0 (gsMatrix.Zero 1 1)
        (gsMatrix.Zero 1 1)).2.2.coeff 0 0 ≠
      (gsMatrix.Zero 1 1 : gsMatrix Int).coeff 0 0 -
        exScatter.localMat.coeff 0 1 * exFixed.coeff 0 0 := by
  decide

/-- C3, amended. `gsVisitorMass::localToGlobal` applies no static condensation:
whatever the mapper, the local matrix, the active indices and the eliminated
values are, the right-hand side after the call is the right-hand side before
it. -/
theorem localToGlobal_keeps_rhs [Add T] (v : gsVisitorMass T) (mapper : gsDofMapper)
    (elim : gsMatrix T) (patchIndex : Int) (sys : gsSparseMatrix T) (rhs : gsMatrix T) :
    (v.localToGlobal mapper elim patchIndex sys rhs).2.2 = rhs := rfl

/-- C8. Accumulation is order-invariant: scattering element `A` and then
element `B` into a global matrix gives the same matrix as scattering `B` and
then `A`, for every mapper, every initial matrix and any two elements (their
active indices may map to common global indices). -/
theorem localToGlobal_order_invariant [AddCommMonoid T] (mapper : gsDofMapper)
    (elim : gsMatrix T) (sys : gsSparseMatrix T) (rhs : gsMatrix T)
    (vA vB : gsVisitorMass T) (patchA patchB : Int) :
    (vB.localToGlobal mapper elim patchB
        (vA.localToGlobal mapper elim patchA sys rhs).2.1
        (vA.localToGlobal mapper elim patchA sys rhs).2.2).2.1 =
      (vA.localToGlobal mapper elim patchA
        (vB.localToGlobal mapper elim patchB sys rhs).2.1
        (vB.localToGlobal mapper elim patchB sys rhs).2.2).2.1 := by
  obtain ⟨a1, a2, a3⟩ := localToGlobal_spec vA mapper elim patchA sys rhs
  obtain ⟨b1, b2, b3⟩ := localToGlobal_spec vB mapper elim patchB sys rhs
  obtain ⟨ab1, ab2, ab3⟩ := localToGlobal_spec vB mapper elim patchB
    (vA.localToGlobal mapper elim patchA sys rhs).2.1
    (vA.localToGlobal mapper elim patchA sys rhs).2.2
  obtain ⟨ba1, ba2, ba3⟩ := localToGlobal_spec vA mapper elim patchA
    (vB.localToGlobal mapper elim patchB sys rhs).2.1
    (vB.localToGlobal mapper elim patchB sys rhs).2.2
  apply gsMatrix.ext
  · rw [ab1, a1, ba1, b1]
  · rw [ab2, a2, ba2, b2]
  · funext r c
    rw [ab3, a3, ba3, b3, add_right_comm]

/-- C9. Mass assembly of a single element with a degree-0 basis gives the domain
measure: with one active function of value `1` at every quadrature point,
`assemble` yields a `1 x 1` local matrix whose entry is the sum of
`weight * measure`; scattering it into an empty `1 x 1` system whose single DOF
(global index `0`) is free gives that value, which is `1` when the weights sum
to `1` and every measure is `1`. -/
theorem mass_degree_zero_measure [Semiring T] (v : gsVisitorMass T)
    (geoEval : gsGeometryEvaluator T) (quWeights : gsMatrix T) (mapper : gsDofMapper)
    (elim : gsMatrix T) (patchIndex : Int) (rhs : gsMatrix T)
    (hB : v.basisData.rows = 1)
    (hone : ∀ q, q < v.basisData.cols → v.basisData.coeff 0 q = 1)
    (hw : quWeights.rows = v.basisData.cols)
    (hm : geoEval.measures.rows = v.basisData.cols)
    (hrows : (mapper.localToGlobal v.actives patchIndex).rows = 1)
    (hglob : (mapper.localToGlobal v.actives patchIndex).coeff 0 0 = 0)
    (hfree : mapper.is_free_index 0 = true) :
    (v.assemble geoEval quWeights).localMat.rows = 1 ∧
    (v.assemble geoEval quWeights).localMat.cols = 1 ∧
    (v.assemble geoEval quWeights).localMat.coeff 0 0 =
      ∑ q in Finset.range v.basisData.cols, quWeights.coeff q 0 * geoEval.measures.coeff q 0 ∧
    ((v.assemble geoEval quWeights).localToGlobal mapper elim patchIndex
        (gsMatrix.Zero 1 1) rhs).2.1.coeff 0 0 =
      ∑ q in Finset.range v.basisData.cols, quWeights.coeff q 0 * geoEval.measures.coeff q 0 ∧
    (∑ q in Finset.range v.basisData.cols, quWeights.coeff q 0 = 1 →
      (∀ q, q < v.basisData.cols → geoEval.measures.coeff q 0 = 1) →
      ((v.assemble geoEval quWeights).localToGlobal mapper elim patchIndex
        (gsMatrix.Zero 1 1) rhs).2.1.coeff 0 0 = 1) := by
  have hloc : (v.assemble geoEval quWeights).localMat.coeff 0 0 =
      ∑ q in Finset.range v.basisData.cols,
        quWeights.coeff q 0 * geoEval.measures.coeff q 0 := by
    rw [assemble_coeff v geoEval quWeights hw hm]
    apply Finset.sum_congr rfl
    intro q hq
    rw [hone q (Finset.mem_range.mp hq), one_mul, mul_one]
  have hact : (v.assemble geoEval quWeights).actives = v.actives := rfl
  have hsys : ((v.assemble geoEval quWeights).localToGlobal mapper elim patchIndex
        (gsMatrix.Zero 1 1) rhs).2.1.coeff 0 0 =
      ∑ q in Finset.range v.basisData.cols,
        quWeights.coeff q 0 * geoEval.measures.coeff q 0 := by
    rw [(localToGlobal_spec (v.assemble geoEval quWeights) mapper elim patchIndex
      (gsMatrix.Zero 1 1) rhs).2.2, hact, hrows]
    simp only [Finset.sum_range_one, hglob, hfree, and_self, if_true, hloc]
    simp [gsMatrix.Zero]
  refine ⟨hB, hB, hloc, hsys, ?_⟩
  intro hsum hmeas
  rw [hsys, ← hsum]
  apply Finset.sum_congr rfl
  intro q hq
  rw [hmeas q (Finset.mem_range.mp hq), mul_one]

/-- Witness of C9: one active function, two quadrature points with weights
`1/2` and measure `1`. -/
theorem mass_degree_zero_measure_witness :
    ((exDegreeZero.assemble exUnitGeo exHalfWeights).localToGlobal exMapper
        (gsMatrix.Zero 0 1) 0 (gsMatrix.Zero 1 1) (gsMatrix.Zero 1 1)).2.1.coeff 0 0 = 1 :=
  (mass_degree_zero_measure exDegreeZero exUnitGeo exHalfWeights exMapper
    (gsMatrix.Zero 0 1) 0 (gsMatrix.Zero 1 1) rfl (fun _ _ => rfl) rfl rfl rfl rfl rfl).2.2.2.2
    (by norm_num [Finset.sum_range_succ, exDegreeZero, exHalfWeights])
    (fun _ _ => rfl)

end ScatterTheorems

/-! ## Theorems: expansion of the free-DOF vector -/

section ExpandTheorems

variable {T : Type}

theorem setRow_coeff (M : gsMatrix T) (i : Nat) (x : T) (r c : Nat) :
    (M.setRow i x).coeff r c = if r = i ∧ c < M.cols then x else M.coeff r c := rfl

/-- A loop that assigns row `i` in step `i` leaves a one-column matrix whose
first `m` rows hold the assigned values. -/
theorem forLoop_setRow (val : Nat → T) (s : gsMatrix T) (hs : s.cols = 1) (m : Nat) :
    (forLoop m (fun i acc => acc.setRow i (val i)) s).rows = s.rows ∧
    (forLoop m (fun i acc => acc.setRow i (val i)) s).cols = 1 ∧
    ∀ i, i < m → (forLoop m (fun i acc => acc.setRow i (val i)) s).coeff i 0 = val i := by
  induction m with
  | zero =>
    refine ⟨rfl, hs, ?_⟩
    intro i hi
    exact absurd hi (Nat.not_lt_zero i)
  | succ m ih =>
    rw [forLoop_succ]
    obtain ⟨h1, h2, h3⟩ := ih
    refine ⟨h1, h2, ?_⟩
    intro i hi
    rw [setRow_coeff]
    by_cases him : i = m
    · subst him
      rw [if_pos ⟨rfl, by rw [h2]; exact Nat.one_pos⟩]
    · rw [if_neg (fun h => him h.1)]
      exact h3 i (by omega)

/-- C4. `addDirVal` expands a free-DOF vector to the full basis: the result has
exactly `n` (the basis size) rows, and for every basis index `i < n` its row `i`
is `solVector[mapper.index(i)]` when `i` is free and the prescribed value
`fixedDofs[mapper.bindex(i)]` when `i` is eliminated. -/
theorem addDirVal_expands [OfNat T 0] (a : gsAssembler T) (solVector : gsMatrix T) :
    (addDirVal a solVector).rows = a.basisSize ∧
    (addDirVal a solVector).cols = 1 ∧
    ∀ i, i < a.basisSize →
      (addDirVal a solVector).coeff i 0 =
        if a.colMapper.is_free i 0 = true then solVector.coeff (a.colMapper.index i 0) 0
        else a.fixedDofs.coeff (a.colMapper.bindex i 0) 0 := by
  have hbody : (fun i (acc : gsMatrix T) =>
      if a.colMapper.is_free i 0 = true then
        acc.setRow i (solVector.coeff (a.colMapper.index i 0) 0)
      else acc.setRow i (a.fixedDofs.coeff (a.colMapper.bindex i 0) 0)) =
      (fun i acc => acc.setRow i
        (if a.colMapper.is_free i 0 = true then solVector.coeff (a.colMapper.index i 0) 0
         else a.fixedDofs.coeff (a.colMapper.bindex i 0) 0)) := by
    funext i acc
    split <;> rfl
  simp only [addDirVal]
  rw [hbody]
  exact forLoop_setRow _ (gsMatrix.Zero a.basisSize 1) rfl a.basisSize

/-- Witness of C4: with fixed values `[7, 9]` and the free value `5` the
expansion is `[7, 5, 9]`; basis function `2` is eliminated with slot `1` and
receives `9`, basis function `1` is free and receives `5`. -/
theorem addDirVal_expands_witness :
    (addDirVal exAssembler exSol).rows = 3 ∧
    (addDirVal exAssembler exSol).coeff 2 0 = 9 ∧
    (addDirVal exAssembler exSol).coeff 1 0 = 5 :=
  ⟨(addDirVal_expands exAssembler exSol).1,
   (addDirVal_expands exAssembler exSol).2.2 2 (by decide),
   (addDirVal_expands exAssembler exSol).2.2 1 (by decide)⟩

end ExpandTheorems

/-! ## Theorems: the fixed-point loop -/

section FixedPointTheorems

variable {T : Type} [LinearOrderedRing T]

/-- The loop continues after a body execution that leaves state `s`. -/
theorem fixedPointLoop_unfold (svc : LinpLapServices T) (maxiter : Int) (TOL : T)
    (s : LinpLapState T) :
    fixedPointLoop svc maxiter TOL s =
      if (fixedPointBody svc s).iter < maxiter ∧ TOL < svc.norm (fixedPointBody svc s).rh then
        fixedPointLoop svc maxiter TOL (fixedPointBody svc s)
      else fixedPointBody svc s := by
  rw [fixedPointLoop]
  split <;> rfl

theorem iterate_body_iter (svc : LinpLapServices T) (s : LinpLapState T) (k : Nat) :
    ((fixedPointBody svc)^[k] s).iter = s.iter + k := by
  induction k with
  | zero => simp
  | succ k ih =>
    rw [Function.iterate_succ_apply']
    show ((fixedPointBody svc)^[k] s).iter + 1 = _
    rw [ih]
    push_cast
    ring

theorem iterate_body_fh (svc : LinpLapServices T) (s : LinpLapState T) (k : Nat) :
    ((fixedPointBody svc)^[k] s).fh = s.fh := by
  induction k with
  | zero => rfl
  | succ k ih =>
    rw [Function.iterate_succ_apply']
    exact ih

/-- The do-while loop returns the state after `j` body executions, where `j` is
the first execution count (at least one) at which the continuation test
fails. -/
theorem fixedPointLoop_first_stop (svc : LinpLapServices T) (maxiter : Int) (TOL : T) :
    ∀ (d : Nat) (s : LinpLapState T), (maxiter - s.iter).toNat ≤ d →
      ∃ j : Nat, 1 ≤ j ∧
        fixedPointLoop svc maxiter TOL s = (fixedPointBody svc)^[j] s ∧
        ¬ (((fixedPointBody svc)^[j] s).iter < maxiter ∧
            TOL < svc.norm ((fixedPointBody svc)^[j] s).rh) ∧
        ∀ k, 1 ≤ k → k < j →
          (((fixedPointBody svc)^[k] s).iter < maxiter ∧
            TOL < svc.norm ((fixedPointBody svc)^[k] s).rh) := by
  intro d
  induction d with
  | zero =>
    intro s hd
    have hstop : ¬ ((fixedPointBody svc s).iter < maxiter ∧
        TOL < svc.norm (fixedPointBody svc s).rh) := by
      rintro ⟨h1, -⟩
      have : (fixedPointBody svc s).iter = s.iter + 1 := rfl
      omega
    refine ⟨1, le_refl 1, ?_, hstop, ?_⟩
    · rw [fixedPointLoop_unfold, if_neg hstop]
      rfl
    · intro k h1 h2
      omega
  | succ d ih =>
    intro s hd
    by_cases hcont : (fixedPointBody svc s).iter < maxiter ∧
        TOL < svc.norm (fixedPointBody svc s).rh
    · have hiter : (fixedPointBody svc s).iter = s.iter + 1 := rfl
      have hd1 : (maxiter - (fixedPointBody svc s).iter).toNat ≤ d := by
        have := hcont.1
        omega
      obtain ⟨j, hj1, hj2, hj3, hj4⟩ := ih (fixedPointBody svc s) hd1
      refine ⟨j + 1, by omega, ?_, ?_, ?_⟩
      · rw [fixedPointLoop_unfold, if_pos hcont, hj2, Function.iterate_succ_apply]
      · rw [Function.iterate_succ_apply]
        exact hj3
      · intro k hk1 hk2
        obtain ⟨m, rfl⟩ : ∃ m, k = m + 1 := ⟨k - 1, by omega⟩
        rw [Function.iterate_succ_apply]
        rcases Nat.eq_zero_or_pos m with hm | hm
        · subst hm
          exact hcont
        · exact hj4 m hm (by omega)
    · refine ⟨1, le_refl 1, ?_, hcont, ?_⟩
      · rw [fixedPointLoop_unfold, if_neg hcont]
        rfl
      · intro k h1 h2
        omega

/-- The loop of one level, in terms of the iteration count it reports. -/
theorem solveLevel_spec (svc : LinpLapServices T) (n : Nat) (solVector rh : gsMatrix T)
    (maxiter : Int) (TOL : T) :
    ∃ j : Nat, 1 ≤ j ∧
      (solveLevel svc n solVector rh maxiter TOL).iter = (j : Int) ∧
      solveLevel svc n solVector rh maxiter TOL = levelIterate svc n solVector rh j ∧
      (svc.norm (levelIterate svc n solVector rh j).rh ≤ TOL ∨ maxiter ≤ (j : Int)) ∧
      ∀ k : Nat, 1 ≤ k → k < j →
        (TOL < svc.norm (levelIterate svc n solVector rh k).rh ∧ (k : Int) < maxiter) := by
  obtain ⟨j, hj1, hj2, hj3, hj4⟩ :=
    fixedPointLoop_first_stop svc maxiter TOL _ (levelInit svc n solVector rh) (le_refl _)
  have hit : ∀ k : Nat, (levelIterate svc n solVector rh k).iter = (k : Int) := by
    intro k
    show ((fixedPointBody svc)^[k] (levelInit svc n solVector rh)).iter = _
    rw [iterate_body_iter]
    show (0 : Int) + k = k
    simp
  refine ⟨j, hj1, ?_, hj2, ?_, ?_⟩
  · show (fixedPointLoop svc maxiter TOL (levelInit svc n solVector rh)).iter = _
    rw [hj2]
    exact hit j
  · have h := hj3
    rw [not_and_or, not_lt, not_lt] at h
    rcases h with h | h
    · right
      have := hit j
      unfold levelIterate at this
      rw [this] at h
      exact h
    · left
      exact h
  · intro k hk1 hk2
    obtain ⟨h1, h2⟩ := hj4 k hk1 hk2
    refine ⟨h2, ?_⟩
    have := hit k
    unfold levelIterate at this
    rw [this] at h1
    exact h1

/-- C5. The fixed-point loop stops at the first iteration that meets the
stopping test.  With `r_k` the residual `K(w_k) * x_k - fh` computed in
iteration `k` (`x_k` the `k`-th solve, made with the matrix left by iteration
`k - 1`, and `w_k` its expansion), the final iteration count is at least `1`,
the final state is the state after that many body executions, the count
satisfies `norm(r_k) <= TOL` or `k >= maxiter`, and no smaller `k >= 1` does. -/
theorem fixedPoint_stops_at_first_test (svc : LinpLapServices T) (n : Nat)
    (solVector rh : gsMatrix T) (maxiter : Int) (TOL : T) :
    1 ≤ (solveLevel svc n solVector rh maxiter TOL).iter ∧
    solveLevel svc n solVector rh maxiter TOL =
      levelIterate svc n solVector rh (solveLevel svc n solVector rh maxiter TOL).iter.toNat ∧
    (svc.norm (levelIterate svc n solVector rh
        (solveLevel svc n solVector rh maxiter TOL).iter.toNat).rh ≤ TOL ∨
      maxiter ≤ (solveLevel svc n solVector rh maxiter TOL).iter) ∧
    (∀ k : Nat, 1 ≤ k → (k : Int) < (solveLevel svc n solVector rh maxiter TOL).iter →
      ¬ (svc.norm (levelIterate svc n solVector rh k).rh ≤ TOL ∨ maxiter ≤ (k : Int))) ∧
    (∀ k : Nat,
      (levelIterate svc n solVector rh (k + 1)).solVector =
        svc.solve (levelIterate svc n solVector rh k).Kh
          (levelIterate svc n solVector rh 0).fh ∧
      (levelIterate svc n solVector rh (k + 1)).pde_w =
        addDirVal (levelIterate svc n solVector rh k).assembler.togsAssembler
          (levelIterate svc n solVector rh (k + 1)).solVector ∧
      (levelIterate svc n solVector rh (k + 1)).Kh =
        (svc.assemble (svc.construct (levelIterate svc n solVector rh (k + 1)).pde_w)).matrix ∧
      (levelIterate svc n solVector rh (k + 1)).rh =
        ((levelIterate svc n solVector rh (k + 1)).Kh.mul
          (levelIterate svc n solVector rh (k + 1)).solVector).sub
            (levelIterate svc n solVector rh 0).fh) := by
  obtain ⟨j, hj1, hj2, hj3, hj4, hj5⟩ := solveLevel_spec svc n solVector rh maxiter TOL
  have hnat : (solveLevel svc n solVector rh maxiter TOL).iter.toNat = j := by
    rw [hj2]
    exact Int.toNat_natCast j
  rw [hnat, hj2]
  refine ⟨by exact_mod_cast hj1, hj3, hj4, ?_, ?_⟩
  · intro k hk1 hk2
    obtain ⟨h1, h2⟩ := hj5 k hk1 (by exact_mod_cast hk2)
    rw [not_or, not_le, not_le]
    exact ⟨h1, h2⟩
  · intro k
    have hstep : levelIterate svc n solVector rh (k + 1) =
        fixedPointBody svc (levelIterate svc n solVector rh k) := by
      unfold levelIterate
      rw [Function.iterate_succ_apply']
    have hfh : (levelIterate svc n solVector rh k).fh =
        (levelIterate svc n solVector rh 0).fh := by
      unfold levelIterate
      rw [iterate_body_fh]
      rfl
    rw [hstep, ← hfh]
    exact ⟨rfl, rfl, rfl, rfl⟩

/-- C6. Non-convergence is a normal, bounded outcome: for every `maxiter >= 1`,
every tolerance and every residual sequence the loop returns after at least one
and at most `maxiter` body executions, and when no residual before the last
allowed iteration is `<= TOL` the reported iteration count is `maxiter`. -/
theorem fixedPoint_bounded_nonconvergence (svc : LinpLapServices T) (n : Nat)
    (solVector rh : gsMatrix T) (maxiter : Int) (TOL : T) (hmax : 1 ≤ maxiter) :
    1 ≤ (solveLevel svc n solVector rh maxiter TOL).iter ∧
    (solveLevel svc n solVector rh maxiter TOL).iter ≤ maxiter ∧
    solveLevel svc n solVector rh maxiter TOL =
      levelIterate svc n solVector rh (solveLevel svc n solVector rh maxiter TOL).iter.toNat ∧
    ((∀ k : Nat, 1 ≤ k → (k : Int) < maxiter →
        TOL < svc.norm (levelIterate svc n solVector rh k).rh) →
      (solveLevel svc n solVector rh maxiter TOL).iter = maxiter) := by
  obtain ⟨j, hj1, hj2, hj3, hj4, hj5⟩ := solveLevel_spec svc n solVector rh maxiter TOL
  have hnat : (solveLevel svc n solVector rh maxiter TOL).iter.toNat = j := by
    rw [hj2]
    exact Int.toNat_natCast j
  have hle : (j : Int) ≤ maxiter := by
    by_contra hgt
    rw [not_le] at hgt
    have h1 : 1 ≤ maxiter.toNat := by omega
    have h2 : maxiter.toNat < j := by omega
    have := (hj5 maxiter.toNat h1 h2).2
    omega
  rw [hnat, hj2]
  refine ⟨by exact_mod_cast hj1, hle, hj3, ?_⟩
  intro hall
  rcases hj4 with h | h
  · by_contra hne
    have hlt : (j : Int) < maxiter := lt_of_le_of_ne hle hne
    exact absurd (hall j hj1 hlt) (not_lt.mpr h)
  · exact le_antisymm hle h

/-- C7. On a linear operator the loop converges in one iteration: when the
assembled matrix is the same `K` for every linearization state and the solve
returns `x` with `K * x = fh`, the first body execution solves `x = solve K fh`,
expands it to the new `w`, re-assembles `K` and forms the residual
`K * x - fh`, which is zero; so for every `TOL >= 0` and every `maxiter` the
loop exits with iteration count `1`, in the state left by that one body
execution. -/
theorem fixedPoint_linear_one_iteration (svc : LinpLapServices T) (n : Nat)
    (solVector rh : gsMatrix T) (maxiter : Int) (TOL : T) (K : gsSparseMatrix T)
    (hK : ∀ w, (svc.assemble (svc.construct w)).matrix = K)
    (hsolve : (K.mul (svc.solve K (svc.assemble (svc.construct (gsMatrix.Zero n 1))).rhs)).equalOn
      (svc.assemble (svc.construct (gsMatrix.Zero n 1))).rhs)
    (hnorm : ∀ v : gsMatrix T, v.isZero → svc.norm v = 0)
    (hTOL : 0 ≤ TOL) :
    (solveLevel svc n solVector rh maxiter TOL).iter = 1 ∧
    (solveLevel svc n solVector rh maxiter TOL).rh.isZero ∧
    solveLevel svc n solVector rh maxiter TOL = levelIterate svc n solVector rh 1 ∧
    (solveLevel svc n solVector rh maxiter TOL).solVector =
      svc.solve K (svc.assemble (svc.construct (gsMatrix.Zero n 1))).rhs ∧
    (solveLevel svc n solVector rh maxiter TOL).pde_w =
      addDirVal (svc.assemble (svc.construct (gsMatrix.Zero n 1))).togsAssembler
        (svc.solve K (svc.assemble (svc.construct (gsMatrix.Zero n 1))).rhs) ∧
    (solveLevel svc n solVector rh maxiter TOL).Kh = K ∧
    (solveLevel svc n solVector rh maxiter TOL).rh =
      (K.mul (svc.solve K (svc.assemble (svc.construct (gsMatrix.Zero n 1))).rhs)).sub
        (svc.assemble (svc.construct (gsMatrix.Zero n 1))).rhs ∧
    svc.norm (solveLevel svc n solVector rh maxiter TOL).rh = 0 := by
  have hK0 : (levelInit svc n solVector rh).Kh = K := hK _
  have hx : (fixedPointBody svc (levelInit svc n solVector rh)).solVector =
      svc.solve K (svc.assemble (svc.construct (gsMatrix.Zero n 1))).rhs := by
    show svc.solve (levelInit svc n solVector rh).Kh (levelInit svc n solVector rh).fh = _
    rw [hK0]
    rfl
  have hw : (fixedPointBody svc (levelInit svc n solVector rh)).pde_w =
      addDirVal (svc.assemble (svc.construct (gsMatrix.Zero n 1))).togsAssembler
        (svc.solve K (svc.assemble (svc.construct (gsMatrix.Zero n 1))).rhs) := by
    show addDirVal (levelInit svc n solVector rh).assembler.togsAssembler
      (svc.solve (levelInit svc n solVector rh).Kh (levelInit svc n solVector rh).fh) = _
    rw [hK0]
    rfl
  have hKh : (fixedPointBody svc (levelInit svc n solVector rh)).Kh = K := hK _
  have hrh : (fixedPointBody svc (levelInit svc n solVector rh)).rh =
      (K.mul (svc.solve K (svc.assemble (svc.construct (gsMatrix.Zero n 1))).rhs)).sub
        (svc.assemble (svc.construct (gsMatrix.Zero n 1))).rhs := by
    simp only [fixedPointBody, levelInit, hK]
  have hzero : (fixedPointBody svc (levelInit svc n solVector rh)).rh.isZero := by
    rw [hrh]
    intro i j hi hj
    show (K.mul (svc.solve K (svc.assemble (svc.construct (gsMatrix.Zero n 1))).rhs)).coeff i j -
      (svc.assemble (svc.construct (gsMatrix.Zero n 1))).rhs.coeff i j = 0
    rw [hsolve.2.2 i j hi hj, sub_self]
  have hstop : ¬ ((fixedPointBody svc (levelInit svc n solVector rh)).iter < maxiter ∧
      TOL < svc.norm (fixedPointBody svc (levelInit svc n solVector rh)).rh) := by
    rintro ⟨-, h⟩
    rw [hnorm _ hzero] at h
    exact absurd h (not_lt.mpr hTOL)
  have hloop : solveLevel svc n solVector rh maxiter TOL =
      fixedPointBody svc (levelInit svc n solVector rh) := by
    unfold solveLevel
    rw [fixedPointLoop_unfold, if_neg hstop]
  rw [hloop]
  exact ⟨rfl, hzero, rfl, hx, hw, hKh, hrh, hnorm _ hzero⟩

end FixedPointTheorems

/-! ## Evaluations of the fixed-point loop -/

section FixedPointWitnesses

/-- On the scalar nonlinear problem with `maxiter = 50` and `TOL = 5` the loop
reports two iterations (residual norms `16`, `4`). -/
theorem exServices_two_iterations :
    (solveLevel exServices 1 (gsMatrix.Zero 1 1) (gsMatrix.Zero 1 1) 50 5).iter = 2 := by
  unfold solveLevel
  rw [fixedPointLoop_unfold, if_pos (by decide), fixedPointLoop_unfold, if_neg (by decide)]
  rfl

/-- Witness of C5: the loop reports two iterations, and iteration `1` does not
meet the stopping test. -/
theorem fixedPoint_stops_at_first_test_witness :
    (1 : Int) < (solveLevel exServices 1 (gsMatrix.Zero 1 1) (gsMatrix.Zero 1 1) 50 5).iter ∧
    ¬ (exServices.norm
        (levelIterate exServices 1 (gsMatrix.Zero 1 1) (gsMatrix.Zero 1 1) 1).rh ≤ 5 ∨
      (50 : Int) ≤ ((1 : Nat) : Int)) :=
  ⟨by rw [exServices_two_iterations]; decide,
   (fixedPoint_stops_at_first_test exServices 1 (gsMatrix.Zero 1 1) (gsMatrix.Zero 1 1) 50 5).2.2.2.1
     1 (le_refl 1) (by rw [exServices_two_iterations]; decide)⟩

/-- Witness of C6: with `maxiter = 3` and `TOL = 0` no residual reaches the
tolerance and the reported count is `3`. -/
theorem fixedPoint_bounded_nonconvergence_witness :
    (1 : Int) ≤ 3 ∧
    (solveLevel exServices 1 (gsMatrix.Zero 1 1) (gsMatrix.Zero 1 1) 3 0).iter = 3 :=
  ⟨by decide,
   (fixedPoint_bounded_nonconvergence exServices 1 (gsMatrix.Zero 1 1) (gsMatrix.Zero 1 1) 3 0
     (by decide)).2.2.2 (by
       intro k h1 h2
       have h3 : k < 3 := by exact_mod_cast h2
       interval_cases k <;> decide)⟩

/-- The example norm of a matrix without nonzero stored coefficient is zero. -/
theorem exNorm_zero (v : gsMatrix Int) (hv : v.isZero) : exNorm v = 0 := by
  unfold exNorm
  split
  · rfl
  · rename_i h
    rw [not_or] at h
    rw [hv 0 0 (Nat.pos_of_ne_zero h.1) (Nat.pos_of_ne_zero h.2)]
    rfl

/-- Witness of C7: matrix `[2]`, right-hand side `[4]`; the loop reports one
iteration, its solution is the exact solve `[2]` and its residual is
`2 * 2 - 4 = 0`. -/
theorem fixedPoint_linear_one_iteration_witness :
    (solveLevel exLinearServices 1 (gsMatrix.Zero 1 1) (gsMatrix.Zero 1 1) 50 0).iter = 1 ∧
    (solveLevel exLinearServices 1 (gsMatrix.Zero 1 1) (gsMatrix.Zero 1 1)
      50 0).solVector.coeff 0 0 = 2 ∧
    (solveLevel exLinearServices 1 (gsMatrix.Zero 1 1) (gsMatrix.Zero 1 1)
      50 0).rh.coeff 0 0 = 0 :=
  ⟨(fixedPoint_linear_one_iteration exLinearServices 1 (gsMatrix.Zero 1 1) (gsMatrix.Zero 1 1)
      50 0 { rows := 1, cols := 1, coeff := fun _ _ => 2 } (fun _ => rfl)
      ⟨rfl, rfl, fun _ _ _ _ => rfl⟩ exNorm_zero (le_refl 0)).1,
   (congrArg (fun v => v.coeff 0 0)
     (fixedPoint_linear_one_iteration exLinearServices 1 (gsMatrix.Zero 1 1) (gsMatrix.Zero 1 1)
      50 0 { rows := 1, cols := 1, coeff := fun _ _ => 2 } (fun _ => rfl)
      ⟨rfl, rfl, fun _ _ _ _ => rfl⟩ exNorm_zero (le_refl 0)).2.2.2.1).trans rfl,
   (congrArg (fun v => v.coeff 0 0)
     (fixedPoint_linear_one_iteration exLinearServices 1 (gsMatrix.Zero 1 1) (gsMatrix.Zero 1 1)
      50 0 { rows := 1, cols := 1, coeff := fun _ _ => 2 } (fun _ => rfl)
      ⟨rfl, rfl, fun _ _ _ _ => rfl⟩ exNorm_zero (le_refl 0)).2.2.2.2.2.2.1).trans rfl⟩

end FixedPointWitnesses

/-! ## Theorems: the adaptive refinement loop -/

section AdaptTheorems

variable {B F T : Type}

/-- A wrapped value is a 32-bit `int`. -/
theorem wrapInt32_range (x : Int) : -2147483648 ≤ wrapInt32 x ∧ wrapInt32 x ≤ 2147483647 := by
  unfold wrapInt32
  norm_num
  omega

/-- Values that fit in 32 bits are not changed by wrapping. -/
theorem wrapInt32_of_fits (x : Int) (h1 : -2147483648 ≤ x) (h2 : x ≤ 2147483647) :
    wrapInt32 x = x := by
  unfold wrapInt32
  norm_num
  omega

/-- One evaluation of the loop condition. -/
theorem adaptiveLoopFrom_succ (svc : AdaptServices B F T) (RefineLoopMax : Int) (fuel : Nat)
    (RefineLoop : Int) (st : B × List Int) :
    adaptiveLoopFrom svc RefineLoopMax (fuel + 1) RefineLoop st =
      if RefineLoop ≤ RefineLoopMax then
        adaptiveLoopFrom svc RefineLoopMax fuel (wrapInt32 (RefineLoop + 1))
          (refinePass svc st.1, st.2 ++ [RefineLoop])
      else some st := rfl

/-- With the largest `int` as bound the condition `RefineLoop <= RefineLoopMax`
holds for every counter value, so no amount of fuel ends the loop. -/
theorem adaptiveLoopFrom_int_max (svc : AdaptServices B F T) :
    ∀ (fuel : Nat) (RefineLoop : Int) (st : B × List Int), RefineLoop ≤ 2147483647 →
      adaptiveLoopFrom svc 2147483647 fuel RefineLoop st = none := by
  intro fuel
  induction fuel with
  | zero => intro r st _; rfl
  | succ fuel ih =>
    intro r st hr
    rw [adaptiveLoopFrom_succ, if_pos hr]
    exact ih _ _ (wrapInt32_range _).2

/-- Below the largest `int` the loop ends after `RefineLoopMax + 1 - RefineLoop`
passes, numbered consecutively from `RefineLoop`. -/
theorem adaptiveLoopFrom_runs (svc : AdaptServices B F T) (RefineLoopMax : Int)
    (hmax : RefineLoopMax < 2147483647) :
    ∀ (c fuel : Nat) (RefineLoop : Int) (st : B × List Int),
      -2147483648 ≤ RefineLoop → (RefineLoopMax + 1 - RefineLoop).toNat = c →
      RefineLoop ≤ RefineLoopMax + 1 → c < fuel →
      adaptiveLoopFrom svc RefineLoopMax fuel RefineLoop st =
        some ((refinePass svc)^[c] st.1,
          st.2 ++ (List.range c).map (fun (k : Nat) => RefineLoop + (k : Int))) := by
  intro c
  induction c with
  | zero =>
    intro fuel r st hlo hc hr hfuel
    obtain ⟨f, rfl⟩ : ∃ f, fuel = f + 1 := ⟨fuel - 1, by omega⟩
    rw [adaptiveLoopFrom_succ, if_neg (by omega)]
    simp
  | succ c ih =>
    intro fuel r st hlo hc hr hfuel
    obtain ⟨f, rfl⟩ : ∃ f, fuel = f + 1 := ⟨fuel - 1, by omega⟩
    have hle : r ≤ RefineLoopMax := by omega
    rw [adaptiveLoopFrom_succ, if_pos hle, wrapInt32_of_fits (r + 1) (by omega) (by omega),
      ih f (r + 1) _ (by omega) (by omega) (by omega) (by omega)]
    simp only [Function.iterate_succ_apply, List.range_succ_eq_map, List.map_cons,
      List.map_map, List.append_assoc, List.singleton_append, Nat.cast_zero, add_zero]
    have hfun : (fun (k : Nat) => r + 1 + (k : Int)) =
        ((fun (k : Nat) => r + (k : Int)) ∘ Nat.succ) := by
      funext k
      simp only [Function.comp_apply, Nat.cast_succ]
      ring
    rw [hfun]

/-- Below the largest `int`: the loop body runs exactly `max(RefineLoopMax, 0)`
times, with pass numbers `1, 2, ..., RefineLoopMax` in order, whatever the
estimator values are. -/
theorem adaptiveLoop_fixed_passes (svc : AdaptServices B F T) (RefineLoopMax : Int)
    (fuel : Nat) (bases : B) (hmax : RefineLoopMax < 2147483647)
    (hfuel : RefineLoopMax.toNat < fuel) :
    adaptiveLoop svc RefineLoopMax fuel bases =
      some ((refinePass svc)^[RefineLoopMax.toNat] bases,
        (List.range RefineLoopMax.toNat).map (fun (k : Nat) => 1 + (k : Int))) := by
  unfold adaptiveLoop
  by_cases hneg : RefineLoopMax < 0
  · obtain ⟨f, rfl⟩ : ∃ f, fuel = f + 1 := ⟨fuel - 1, by omega⟩
    have h0 : RefineLoopMax.toNat = 0 := by omega
    rw [adaptiveLoopFrom_succ, if_neg (by omega), h0]
    rfl
  · rw [adaptiveLoopFrom_runs svc RefineLoopMax hmax RefineLoopMax.toNat fuel 1 (bases, [])
      (by omega) (by omega) (by omega) hfuel]
    rfl

/-- C10 at the failing input. With `RefineLoopMax = 2147483647` (the largest
`int`) the refinement loop does not end after `RefineLoopMax` passes: for every
amount of fuel the loop is still running. -/
theorem adaptiveLoop_int_max_never_ends (svc : AdaptServices B F T) (fuel : Nat) (bases : B) :
    adaptiveLoop svc 2147483647 fuel bases = none :=
  adaptiveLoopFrom_int_max svc fuel 1 (bases, []) (by decide)

/-- Three passes on the example mesh: `1 -> 4 -> 16 -> 64` elements. -/
theorem adaptiveLoop_fixed_passes_witness :
    adaptiveLoop exAdapt 3 4 1 = some (64, [1, 2, 3]) :=
  adaptiveLoop_fixed_passes exAdapt 3 4 1 (by decide) (by decide)

end AdaptTheorems

/-! ## Theorems: symmetry of the local mass matrix -/

section SymmetryTheorems

variable {T : Type}

/-- Entry `(i,j)` of the product formed by `assemble`, for weight and measure
vectors of any length. -/
theorem assemble_coeff_any [Semiring T] (v : gsVisitorMass T)
    (geoEval : gsGeometryEvaluator T) (quWeights : gsMatrix T) (i j : Nat) :
    (v.assemble geoEval quWeights).localMat.coeff i j =
      ∑ q in Finset.range geoEval.measures.rows,
        (if q < quWeights.rows then
          (if q < v.basisData.cols then v.basisData.coeff i q * quWeights.coeff q 0 else 0) *
            geoEval.measures.coeff q 0
         else 0) * v.basisData.coeff j q := by
  show ∑ q in Finset.range geoEval.measures.asDiagonal.cols,
      ((v.basisData.mul quWeights.asDiagonal).mul geoEval.measures.asDiagonal).coeff i q *
        v.basisData.transpose.coeff q j = _
  apply Finset.sum_congr rfl
  intro q _
  rw [mul_asDiagonal_coeff, mul_asDiagonal_coeff]
  rfl

/-- C14. The local mass matrix is symmetric: for every basis-value matrix,
weight vector and measure vector (of any sign), the matrix produced by
`gsVisitorMass::assemble` satisfies `localMat(i,j) = localMat(j,i)` for all
`i`, `j`. -/
theorem assemble_symmetric [CommSemiring T] (v : gsVisitorMass T)
    (geoEval : gsGeometryEvaluator T) (quWeights : gsMatrix T) (i j : Nat) :
    (v.assemble geoEval quWeights).localMat.coeff i j =
      (v.assemble geoEval quWeights).localMat.coeff j i := by
  rw [assemble_coeff_any, assemble_coeff_any]
  apply Finset.sum_congr rfl
  intro q _
  split_ifs <;> ring

end SymmetryTheorems

/-! ## Theorems: `reduceDirichlet` -/

section ReduceTheorems

/-- C11 at the failing input. For the three-function basis of `exAssembler`
(function `1` free with free index `0`, one free DOF) and the free-DOF vector
`[5]`, the expansion is `[7, 5, 9]` and `reduceDirichlet` returns `[7]`: row
`mapper.index(1) = 0` of the result is the boundary value of row `0` of the full
vector, not its row `1`, and the free-DOF vector is not recovered. -/
theorem reduceDirichlet_addDirVal_diverges :
    exAssembler.colMapper.is_free 1 0 = true ∧
    exAssembler.colMapper.index 1 0 = 0 ∧
    exAssembler.numDofs = 1 ∧ exSol.rows = 1 ∧
    (addDirVal exAssembler exSol).coeff 1 0 = 5 ∧
    exSol.coeff 0 0 = 5 ∧
    (reduceDirichlet exAssembler (addDirVal exAssembler exSol)).rows = 1 ∧
    (reduceDirichlet exAssembler (addDirVal exAssembler exSol)).coeff 0 0 = 7 := by
  decide

/-- On a basis without eliminated functions (`exFreeMapper`, every index its own
free index) the counter `k` stays `0` and `reduceDirichlet` returns the vector
it was given. -/
theorem reduceDirichlet_all_free_example :
    (reduceDirichlet exFreeAssembler exFull).rows = 2 ∧
    (reduceDirichlet exFreeAssembler exFull).coeff 0 0 = 5 ∧
    (reduceDirichlet exFreeAssembler exFull).coeff 1 0 = 6 := by
  decide

end ReduceTheorems

/-! ## Theorems: number of assemblies, minimal iteration -/

section DriverTheorems

variable {T : Type}

theorem iterate_body_assembleCalls [Ring T] (svc : LinpLapServices T) (s : LinpLapState T)
    (k : Nat) : ((fixedPointBody svc)^[k] s).assembleCalls = s.assembleCalls + k := by
  induction k with
  | zero => rfl
  | succ k ih =>
    rw [Function.iterate_succ_apply']
    show ((fixedPointBody svc)^[k] s).assembleCalls + 1 = _
    rw [ih]
    ring

/-- C12 fails as stated. On the scalar nonlinear problem with `maxiter = 50`
and `TOL = 5` the loop makes `2` iterations and `assemble()` is called `3`
times on the level, not `2 * 2`. -/
theorem assemble_calls_counterexample :
    (solveLevel exServices 1 (gsMatrix.Zero 1 1) (gsMatrix.Zero 1 1) 50 5).iter = 2 ∧
    (solveLevel exServices 1 (gsMatrix.Zero 1 1) (gsMatrix.Zero 1 1) 50 5).assembleCalls = 3 ∧
    ((solveLevel exServices 1 (gsMatrix.Zero 1 1) (gsMatrix.Zero 1 1) 50 5).assembleCalls : Int)
      ≠ 2 * (solveLevel exServices 1 (gsMatrix.Zero 1 1) (gsMatrix.Zero 1 1) 50 5).iter := by
  have hcalls :
      (solveLevel exServices 1 (gsMatrix.Zero 1 1) (gsMatrix.Zero 1 1) 50 5).assembleCalls
        = 3 := by
    unfold solveLevel
    rw [fixedPointLoop_unfold, if_pos (by decide), fixedPointLoop_unfold, if_neg (by decide)]
    rfl
  refine ⟨exServices_two_iterations, hcalls, ?_⟩
  rw [hcalls, exServices_two_iterations]
  decide

/-- C12, amended. On one refinement level a run of the fixed-point loop that
makes `iter` iterations calls `assembler.assemble()` exactly `iter + 1` times:
once before the loop and once in every iteration. -/
theorem assemble_calls_iter_plus_one [LinearOrderedRing T] (svc : LinpLapServices T)
    (n : Nat) (solVector rh : gsMatrix T) (maxiter : Int) (TOL : T) :
    ((solveLevel svc n solVector rh maxiter TOL).assembleCalls : Int) =
      (solveLevel svc n solVector rh maxiter TOL).iter + 1 := by
  obtain ⟨j, -, hj2, hj3, -, -⟩ := solveLevel_spec svc n solVector rh maxiter TOL
  rw [hj2, hj3]
  unfold levelIterate
  rw [iterate_body_assembleCalls]
  show ((1 + j : Nat) : Int) = (j : Int) + 1
  push_cast
  ring

/-- C15. The fixed-point loop always performs at least one solve: for every
`maxiter <= 0` and every tolerance the do-while body runs exactly once and the
loop ends with iteration count `1`, which is larger than `maxiter`. -/
theorem fixedPoint_runs_once [LinearOrderedRing T] (svc : LinpLapServices T) (n : Nat)
    (solVector rh : gsMatrix T) (maxiter : Int) (TOL : T) (hmax : maxiter ≤ 0) :
    solveLevel svc n solVector rh maxiter TOL = levelIterate svc n solVector rh 1 ∧
    (solveLevel svc n solVector rh maxiter TOL).iter = 1 ∧
    maxiter < (solveLevel svc n solVector rh maxiter TOL).iter ∧
    (solveLevel svc n solVector rh maxiter TOL).solVector =
      svc.solve (levelInit svc n solVector rh).Kh (levelInit svc n solVector rh).fh := by
  have hstop : ¬ ((fixedPointBody svc (levelInit svc n solVector rh)).iter < maxiter ∧
      TOL < svc.norm (fixedPointBody svc (levelInit svc n solVector rh)).rh) := by
    rintro ⟨h, -⟩
    have h1 : (fixedPointBody svc (levelInit svc n solVector rh)).iter = 1 := rfl
    omega
  have hloop : solveLevel svc n solVector rh maxiter TOL =
      fixedPointBody svc (levelInit svc n solVector rh) := by
    unfold solveLevel
    rw [fixedPointLoop_unfold, if_neg hstop]
  rw [hloop]
  refine ⟨rfl, rfl, ?_, rfl⟩
  show maxiter < 1
  omega

/-- Witness of C15 with `maxiter = -3` on the scalar nonlinear problem. -/
theorem fixedPoint_runs_once_witness :
    (-3 : Int) ≤ 0 ∧
    (solveLevel exServices 1 (gsMatrix.Zero 1 1) (gsMatrix.Zero 1 1) (-3) 0).iter = 1 :=
  ⟨by decide,
   (fixedPoint_runs_once exServices 1 (gsMatrix.Zero 1 1) (gsMatrix.Zero 1 1) (-3) 0
     (by decide)).2.1⟩

end DriverTheorems
